import Mathlib

set_option maxHeartbeats 1000000

/-!
Shallow embedding of `lib/audit.js` (npm audit remediation engine):
the dependency-tree patcher run by `Auditor.loadShrinkwrap`, the
remediation-action classifier and fix-mode orchestration of `auditCmd`,
the report-error translation, the report-only exit-code logic, and the
lifecycle-hook overrides of `Auditor`.
-/

/-- A node of the resolved dependency tree traversed by
`Auditor.loadShrinkwrap`: a plain object with `name`, `version`, `from`,
`resolved`, `integrity` and a `requires` collection of child nodes.
Fields that a JS `delete` can remove (or that may be absent) are `Option`s. -/
inductive DepNode : Type where
  | mk (name : String) (version : Option String) (fromField : Option String)
      (resolved : Option String) (integrity : Option String)
      (children : Option (List DepNode)) : DepNode

def DepNode.name : DepNode → String
  | .mk n _ _ _ _ _ => n

def DepNode.version : DepNode → Option String
  | .mk _ v _ _ _ _ => v

def DepNode.fromField : DepNode → Option String
  | .mk _ _ f _ _ _ => f

def DepNode.resolved : DepNode → Option String
  | .mk _ _ _ r _ _ => r

def DepNode.integrity : DepNode → Option String
  | .mk _ _ _ _ i _ => i

def DepNode.requires : DepNode → Option (List DepNode)
  | .mk _ _ _ _ _ c => c

def DepNode.withRequires : DepNode → Option (List DepNode) → DepNode
  | .mk n v f r i _, c => .mk n v f r i c

/-- The in-place mutation of the terminal patch target in
`loadShrinkwrap`: `target.version = spec.fetchSpec` followed by
`delete target.from / .resolved / .requires / .integrity`. -/
def stripDep (v : String) : DepNode → DepNode
  | .mk n _ _ _ _ _ => .mk n (some v) none none none none

/-- JS `requires.find(n => n.name === s)`: first child with the given name. -/
def findNamed (s : String) : List DepNode → Option DepNode
  | [] => none
  | n :: ns => if n.name == s then some n else findNamed s ns

/-- Replace the first child named `s` by `x` (models that the node returned
by `find` is mutated in place inside the `requires` array). -/
def setFirst (s : String) (x : DepNode) : List DepNode → List DepNode
  | [] => []
  | n :: ns => if n.name == s then x :: ns else n :: setFirst s x ns

/-- Strip the first child named `s` (the `target.version = …; delete …`
block applied to the node returned by `find`); `none` when `find` returned
`undefined`, in which case `target.version = …` throws a TypeError. -/
def mutateFirst (s v : String) : List DepNode → Option (List DepNode)
  | [] => none
  | n :: ns =>
    if n.name == s then some (stripDep v n :: ns)
    else (mutateFirst s v ns).map (fun l => n :: l)

/-- Scan for the last `@` occurring at a position greater than zero. -/
def lastAtIdx : List Char → Nat → Option Nat → Option Nat
  | [], _, acc => acc
  | c :: cs, i, acc =>
    lastAtIdx cs (i + 1) (if c = '@' && decide (0 < i) then some i else acc)

/-- Modelled from the spec: the external `npm-package-arg` parser (`npa`),
which is a dependency and not part of this repository's `src/`.  For the
specifier strings the patcher feeds it, it splits `name@target` at the last
`@` not in leading (scope) position into the package name and the
version/range (`fetchSpec`) component; a bare name has fetchSpec `latest`. -/
def npaParse (s : String) : String × String :=
  match lastAtIdx s.data 0 none with
  | none => (s, "latest")
  | some i => (⟨s.data.take i⟩, ⟨s.data.drop (i + 1)⟩)

/-- Name lookup in a node's `requires` (the `acc.requires.find` step,
with `none` when `requires` is absent or the name is missing). -/
def childNamed (n : DepNode) (s : String) : Option DepNode :=
  match n.requires with
  | none => none
  | some l => findNamed s l

/-- Pure name-by-name descent from a node (used to state which node a
path prefix reaches before any mutation). -/
def specDescend : DepNode → List String → Option DepNode
  | n, [] => some n
  | n, s :: rest =>
    match childNamed n s with
    | none => none
    | some c => specDescend c rest

/-- The mutation phase of one `reduce` step when `i === this._deepArgs.length - 1`:
parse the segment with `npa`, find the target child by the parsed name and
strip it.  `none` models the TypeError thrown when `acc.requires` is absent
or when `find` returned `undefined`. -/
def mutatePhase (node : DepNode) (seg : String) : Option DepNode :=
  match node.requires with
  | none => none
  | some reqs =>
    match mutateFirst (npaParse seg).1 (npaParse seg).2 reqs with
    | none => none
    | some reqs1 => some (node.withRequires (some reqs1))

/-- One deep-arg path applied to a node: the body of
`arg.reduce((acc, child, i) => { … }, this.idealTree)` in
`Auditor.loadShrinkwrap`.  `dstar` is `this._deepArgs.length - 1` (the code
compares the index inside the path against the number of deep paths), `i`
the current index.  Returns the node after all in-place mutations performed
before either finishing or throwing, paired with `true` when a TypeError
was thrown (an `undefined` accumulator or a missing mutation target). -/
def patchGo (dstar : Nat) : Nat → DepNode → List String → DepNode × Bool
  | _, node, [] => (node, false)
  | i, node, seg :: rest =>
    match (if i = dstar then mutatePhase node seg else some node) with
    | none => (node, true)
    | some node1 =>
      match node1.requires with
      | none => (node1, true)
      | some reqs =>
        match findNamed seg reqs with
        | none => (node1, if rest.isEmpty then false else true)
        | some child =>
          let r := patchGo dstar (i + 1) child rest
          (node1.withRequires (some (setFirst seg r.1 reqs)), r.2)

/-- `this._deepArgs.forEach(arg => arg.reduce(…, this.idealTree))`: apply
each deep path in order, aborting at the first thrown error. -/
def applyGo (dstar : Nat) : DepNode → List (List String) → DepNode × Bool
  | t, [] => (t, false)
  | t, p :: ps =>
    let r := patchGo dstar 0 t p
    if r.2 then (r.1, true) else applyGo dstar r.1 ps

/-- The whole deep-args patching pass of `Auditor.loadShrinkwrap`, with
`dstar = this._deepArgs.length - 1` fixed for the run. -/
def applyDeepArgs (dargs : List (List String)) (tree : DepNode) : DepNode × Bool :=
  applyGo (dargs.length - 1) tree dargs

/-- The shrinkwrap-gated patching step of `loadShrinkwrap`: the deep-arg
loop only runs when `this.idealTree.package._shrinkwrap` is truthy. -/
def loadShrinkwrapPatch (hasShrinkwrap : Bool) (dargs : List (List String))
    (tree : DepNode) : DepNode × Bool :=
  if hasShrinkwrap then applyDeepArgs dargs tree else (tree, false)

/-- A vulnerability record inside a remediation action's `resolves`:
only its `path` (a `>`-separated chain from the root) is consumed here. -/
structure Vuln where
  path : String
  deriving DecidableEq

/-- A remediation action from the audit report (`auditResult.actions`).
`oid` models JS object identity (each parsed action is a distinct object);
the remaining fields are the contents the classifier reads. -/
structure RAction where
  oid : Nat
  module : String
  target : String
  action : String
  isMajor : Bool
  resolves : List Vuln
  deriving DecidableEq

/-- The four buckets built by the `reduce` in `auditCmd` fix mode.  JS
`Set`s keep insertion order, so each bucket is an insertion-ordered list
to which `add` appends only absent elements. -/
structure ActionPlan where
  install : List String
  update : List String
  major : List String
  review : List RAction
  deriving DecidableEq

/-- `Set.prototype.add` for string keys: value equality (SameValueZero). -/
def setAdd (l : List String) (s : String) : List String :=
  if s ∈ l then l else l ++ [s]

/-- `Set.prototype.add` for the `review` bucket: JS object identity. -/
def addReview (l : List RAction) (a : RAction) : List RAction :=
  if l.any (fun b => b.oid == a.oid) then l else l ++ [a]

/-- JS single-character `String.prototype.split` on a character list. -/
def splitOnChar (sep : Char) : List Char → List (List Char)
  | [] => [[]]
  | c :: cs =>
    let r := splitOnChar sep cs
    if c = sep then [] :: r
    else
      match r with
      | [] => [[c]]
      | h :: t => (c :: h) :: t

/-- `s.split('>')` and friends: JS split on a single-character separator
(`"".split(c)` is `[""]`). -/
def jsSplit (s : String) (sep : Char) : List String :=
  (splitOnChar sep s.data).map (fun l => ⟨l⟩)

/-- `Array.prototype.join(sep)`. -/
def jsJoin (sep : String) : List String → String
  | [] => ""
  | [x] => x
  | x :: y :: xs => x ++ sep ++ jsJoin sep (y :: xs)

/-- `Array.prototype.indexOf`: first index of `s`, `-1` when absent. -/
def jsIndexOf (l : List String) (s : String) : Int :=
  match l.findIdx? (fun x => x == s) with
  | none => -1
  | some k => (k : Int)

/-- `Array.prototype.slice(0, e)`: a negative end counts from the length
(clamped at zero), a large end is clamped at the length. -/
def jsSliceTo (l : List String) (e : Int) : List String :=
  if e < 0 then l.take (l.length - (-e).toNat) else l.take e.toNat

/-- The per-vulnerability update entry built in the `update` branch:
`modPath.slice(0, modPath.indexOf(name)).concat(name@version).join('>')`. -/
def updateEntry (path mod tgt : String) : String :=
  let modPath := jsSplit path '>'
  jsJoin ">" (jsSliceTo modPath (jsIndexOf modPath mod) ++ [mod ++ "@" ++ tgt])

/-- One step of the classifying `reduce` over `auditResult.actions`. -/
def classifyStep (acc : ActionPlan) (a : RAction) : ActionPlan :=
  if a.isMajor then
    { acc with major := setAdd acc.major (a.module ++ "@" ++ a.target) }
  else if a.action == "install" then
    { acc with install := setAdd acc.install (a.module ++ "@" ++ a.target) }
  else if a.action == "update" then
    { acc with update :=
        a.resolves.foldl (fun u v => setAdd u (updateEntry v.path a.module a.target)) acc.update }
  else if a.action == "review" then
    { acc with review := addReview acc.review a }
  else acc

/-- The whole classifying `reduce`, from the four empty buckets. -/
def classify (actions : List RAction) : ActionPlan :=
  actions.foldl classifyStep ⟨[], [], [], []⟩

/-- The constructor arguments handed to `new Auditor(...)` in fix mode. -/
structure AuditorInvocation where
  whereDir : String
  dryrun : Bool
  args : List String
  deepArgs : List (List String)
  deriving DecidableEq

/-- Fix-mode orchestration of the install step: when
`actions.update.size || actions.install.size`, log the count
`actions.install.size + actions.update.size` and invoke the Auditor with
`[...actions.install]` as install arguments and each update path split on
`>` as `deepArgs`; otherwise do nothing. -/
def runFixInstall (prefixDir : String) (dryRun : Bool) (plan : ActionPlan) :
    Option (Nat × AuditorInvocation) :=
  if plan.update.isEmpty && plan.install.isEmpty then none
  else some (plan.install.length + plan.update.length,
    ⟨prefixDir, dryRun, plan.install, plan.update.map (fun u => jsSplit u '>')⟩)

/-- A JS error as observed by the audit command's catch handler: message,
`code`, `statusCode` and the `wrapped` original error. -/
inductive JsError : Type where
  | mk (message : String) (code : Option String) (statusCode : Option Int)
      (wrapped : Option JsError) : JsError

def JsError.message : JsError → String
  | .mk m _ _ _ => m

def JsError.code : JsError → Option String
  | .mk _ c _ _ => c

def JsError.statusCode : JsError → Option Int
  | .mk _ _ s _ => s

def JsError.wrapped : JsError → Option JsError
  | .mk _ _ _ w => w

/-- The catch handler around `audit.submitForFullReport`: when
`err.statusCode === 404 || err.statusCode >= 500`, throw a fresh
`ENOAUDIT` error naming the configured registry and wrapping the original;
otherwise rethrow the error unchanged.  The returned value is the error
the handler throws. -/
def handleReportError (registry : String) (err : JsError) : JsError :=
  match err.statusCode with
  | some sc =>
    if sc = 404 ∨ 500 ≤ sc then
      .mk ("Your configured registry (" ++ registry ++
          ") does not support audit requests.")
        (some "ENOAUDIT") none (some err)
    else err
  | none => err

/-- The `metadata.vulnerabilities` counts of an audit report. -/
structure VulnMeta where
  low : Nat
  moderate : Nat
  high : Nat
  critical : Nat
  deriving DecidableEq

/-- `process.exitCode` before the report-only branch runs (its default). -/
def defaultExitCode : Nat := 0

/-- Report-only mode: sum the four severity counts and set
`process.exitCode = 1` when the sum is positive, else leave it untouched. -/
def reportExitCode (initial : Nat) (m : VulnMeta) : Nat :=
  if 0 < m.low + m.moderate + m.high + m.critical then 1 else initial

/-- What a top-level lifecycle phase did: which project scripts ran and
whether the completion callback was invoked. -/
structure LifecycleOutcome where
  scriptsExecuted : List String
  callbackInvoked : Bool
  deriving DecidableEq

/-- The project's configured top-level lifecycle scripts (what the general
installer would run; the Auditor override must ignore them). -/
structure ProjectScripts where
  preinstall : Option String
  postinstall : Option String
  deriving DecidableEq

/-- `Auditor.runPreinstallTopLevelLifecycles (cb) { cb() }`: the override
invokes the callback at once and executes no project script, whatever the
project configures. -/
def runPreinstallTopLevelLifecycles (_scripts : ProjectScripts) :
    LifecycleOutcome :=
  ⟨[], true⟩

/-- `Auditor.runPostinstallTopLevelLifecycles (cb) { cb() }`: as for the
preinstall hook, the override only invokes the callback. -/
def runPostinstallTopLevelLifecycles (_scripts : ProjectScripts) :
    LifecycleOutcome :=
  ⟨[], true⟩

lemma stripDep_name (v : String) (n : DepNode) : (stripDep v n).name = n.name := by
  cases n
  rfl

lemma stripDep_requires (v : String) (n : DepNode) :
    (stripDep v n).requires = none := by
  cases n
  rfl

lemma withRequires_requires (n : DepNode) (q : Option (List DepNode)) :
    (n.withRequires q).requires = q := by
  cases n
  rfl

lemma mem_setAdd_self (l : List String) (s : String) : s ∈ setAdd l s := by
  unfold setAdd
  split
  · assumption
  · simp

lemma mem_setAdd_mono (l : List String) (s t : String) (h : s ∈ l) :
    s ∈ setAdd l t := by
  unfold setAdd
  split
  · exact h
  · simp [h]

lemma setAdd_nodup {l : List String} {s : String} (h : l.Nodup) :
    (setAdd l s).Nodup := by
  unfold setAdd
  split
  · exact h
  · next hs => simp [List.nodup_append, h, hs]

lemma addReview_oid_nodup {l : List RAction} {a : RAction}
    (h : (l.map RAction.oid).Nodup) :
    ((addReview l a).map RAction.oid).Nodup := by
  unfold addReview
  split
  · exact h
  · next hs =>
    have hnot : a.oid ∉ l.map RAction.oid := by
      intro hmem
      rcases List.mem_map.mp hmem with ⟨b, hb, hba⟩
      exact hs (List.any_eq_true.mpr ⟨b, hb, by simp [hba]⟩)
    simp [List.nodup_append, h, hnot]

lemma mem_foldl_setAdd (E : Vuln → String) (s : String) :
    ∀ (l : List Vuln) (u : List String), s ∈ u →
      s ∈ l.foldl (fun acc v => setAdd acc (E v)) u := by
  intro l
  induction l with
  | nil => intro u h; simpa using h
  | cons v vs ih => intro u h; exact ih _ (mem_setAdd_mono _ _ _ h)

lemma mem_foldl_setAdd_self (E : Vuln → String) :
    ∀ (l : List Vuln) (u : List String) (v : Vuln), v ∈ l →
      E v ∈ l.foldl (fun acc w => setAdd acc (E w)) u := by
  intro l
  induction l with
  | nil => intro u v h; simp at h
  | cons w ws ih =>
    intro u v h
    rcases List.mem_cons.mp h with h1 | h2
    · subst h1; exact mem_foldl_setAdd E _ ws _ (mem_setAdd_self _ _)
    · exact ih _ v h2

lemma foldl_setAdd_nodup (E : Vuln → String) :
    ∀ (l : List Vuln) (u : List String), u.Nodup →
      (l.foldl (fun acc v => setAdd acc (E v)) u).Nodup := by
  intro l
  induction l with
  | nil => intro u h; simpa using h
  | cons v vs ih => intro u h; exact ih _ (setAdd_nodup h)

lemma classifyStep_mono (acc : ActionPlan) (b : RAction) :
    (∀ s, s ∈ acc.major → s ∈ (classifyStep acc b).major) ∧
    (∀ s, s ∈ acc.update → s ∈ (classifyStep acc b).update) := by
  by_cases hM : b.isMajor
  · simp only [classifyStep, hM, if_true]
    exact ⟨fun s h => mem_setAdd_mono _ _ _ h, fun s h => h⟩
  · by_cases hI : b.action = "install"
    · simp [classifyStep, hM, hI]
    · by_cases hU : b.action = "update"
      · simp only [classifyStep, hM, hU]
        simp [hI]
        exact fun s h => mem_foldl_setAdd _ s b.resolves acc.update h
      · by_cases hR : b.action = "review"
        · simp [classifyStep, hM, hI, hU, hR]
        · simp [classifyStep, hM, hI, hU, hR]

lemma foldl_classify_mono :
    ∀ (l : List RAction) (acc : ActionPlan),
      (∀ s, s ∈ acc.major → s ∈ (l.foldl classifyStep acc).major) ∧
      (∀ s, s ∈ acc.update → s ∈ (l.foldl classifyStep acc).update) := by
  intro l
  induction l with
  | nil => intro acc; exact ⟨fun s h => h, fun s h => h⟩
  | cons b bs ih =>
    intro acc
    constructor
    · intro s h
      exact (ih (classifyStep acc b)).1 s ((classifyStep_mono acc b).1 s h)
    · intro s h
      exact (ih (classifyStep acc b)).2 s ((classifyStep_mono acc b).2 s h)

lemma foldl_mem_major :
    ∀ (l : List RAction) (acc : ActionPlan) (a : RAction), a ∈ l →
      a.isMajor = true →
      (a.module ++ "@" ++ a.target) ∈ (l.foldl classifyStep acc).major := by
  intro l
  induction l with
  | nil => intro acc a h; simp at h
  | cons b bs ih =>
    intro acc a h hm
    rcases List.mem_cons.mp h with rfl | h2
    · refine (foldl_classify_mono bs (classifyStep acc a)).1 _ ?_
      simp only [classifyStep, hm, if_true]
      exact mem_setAdd_self _ _
    · exact ih _ a h2 hm

lemma foldl_mem_update :
    ∀ (l : List RAction) (acc : ActionPlan) (a : RAction) (v : Vuln), a ∈ l →
      a.isMajor = false → a.action = "update" → v ∈ a.resolves →
      updateEntry v.path a.module a.target ∈ (l.foldl classifyStep acc).update := by
  intro l
  induction l with
  | nil => intro acc a v h; simp at h
  | cons b bs ih =>
    intro acc a v h hm hact hv
    rcases List.mem_cons.mp h with rfl | h2
    · refine (foldl_classify_mono bs (classifyStep acc a)).2 _ ?_
      simp [classifyStep, hm, hact]
      exact mem_foldl_setAdd_self (fun w => updateEntry w.path a.module a.target)
        a.resolves acc.update v hv
    · exact ih _ a v h2 hm hact hv

lemma classifyStep_nodup {acc : ActionPlan} (a : RAction)
    (h1 : acc.install.Nodup) (h2 : acc.update.Nodup) (h3 : acc.major.Nodup)
    (h4 : (acc.review.map RAction.oid).Nodup) :
    (classifyStep acc a).install.Nodup ∧ (classifyStep acc a).update.Nodup ∧
    (classifyStep acc a).major.Nodup ∧
    ((classifyStep acc a).review.map RAction.oid).Nodup := by
  by_cases hM : a.isMajor
  · simp only [classifyStep, hM, if_true]
    exact ⟨h1, h2, setAdd_nodup h3, h4⟩
  · by_cases hI : a.action = "install"
    · simp [classifyStep, hM, hI]
      exact ⟨setAdd_nodup h1, h2, h3, h4⟩
    · by_cases hU : a.action = "update"
      · simp [classifyStep, hM, hI, hU]
        exact ⟨h1, foldl_setAdd_nodup _ _ _ h2, h3, h4⟩
      · by_cases hR : a.action = "review"
        · simp [classifyStep, hM, hI, hU, hR]
          exact ⟨h1, h2, h3, addReview_oid_nodup h4⟩
        · simp [classifyStep, hM, hI, hU, hR]
          exact ⟨h1, h2, h3, h4⟩

lemma classify_foldl_nodup :
    ∀ (l : List RAction) (acc : ActionPlan),
      acc.install.Nodup → acc.update.Nodup → acc.major.Nodup →
      (acc.review.map RAction.oid).Nodup →
      ((l.foldl classifyStep acc).install.Nodup ∧
       (l.foldl classifyStep acc).update.Nodup ∧
       (l.foldl classifyStep acc).major.Nodup ∧
       ((l.foldl classifyStep acc).review.map RAction.oid).Nodup) := by
  intro l
  induction l with
  | nil => intro acc h1 h2 h3 h4; exact ⟨h1, h2, h3, h4⟩
  | cons a as ih =>
    intro acc h1 h2 h3 h4
    obtain ⟨g1, g2, g3, g4⟩ := classifyStep_nodup a h1 h2 h3 h4
    exact ih _ g1 g2 g3 g4

/-- The `lodash` leaf of the evaluation tree for the deep-patch run. -/
def c1Lodash : DepNode :=
  .mk "lodash" (some "4.17.4") (some "lodash@^4.17.0")
    (some "https://registry.invalid/lodash-4.17.4.tgz") (some "sha512-l") none

/-- The `app` dependency holding `lodash` in its `requires`. -/
def c1App : DepNode :=
  .mk "app" (some "1.0.0") none
    (some "https://registry.invalid/app-1.0.0.tgz") (some "sha512-a")
    (some [c1Lodash])

/-- The ideal-tree root whose only dependency is `app`. -/
def c1Root : DepNode :=
  .mk "root" (some "1.0.0") none none none (some [c1App])

/-- C1: on the deep-arg path `["app", "lodash@4.17.21"]` (one path, two
segments) the terminal child `lodash` is reachable under `app`, yet the
shrinkwrap patching phase does not mutate it: because the terminal test
compares the segment index against the number of deep paths
(`i === this._deepArgs.length - 1`), the run strips the first-segment node
`app` (version becomes the bare-name fetch spec `latest`, its `from`,
`resolved`, `requires` and `integrity` are deleted) and then throws a
TypeError descending into the deleted `requires`, contradicting the claimed
terminal-segment mutation. -/
theorem deep_patch_wrong_node_eval :
    loadShrinkwrapPatch true [["app", "lodash@4.17.21"]] c1Root =
      (.mk "root" (some "1.0.0") none none none
        (some [.mk "app" (some "latest") none none none none]), true) ∧
    specDescend c1Root ["app", "lodash"] = some c1Lodash :=
  ⟨rfl, rfl⟩

/-- The single update action of the spec's end-to-end fix example. -/
def c2Action : RAction :=
  ⟨0, "lodash", "4.17.21", "update", false, [⟨"app>lodash"⟩]⟩

/-- C2 counterexample: for the claim's single update action the Auditor is
invoked with an empty install-argument list — the update entry travels only
through `deepArgs` — so the installer does not receive
`["lodash@4.17.21"]` as direct install arguments. -/
theorem fix_invocation_args_counterexample :
    (runFixInstall "." false (classify [c2Action])).map (fun r => r.2.args) =
      some [] ∧
    (runFixInstall "." false (classify [c2Action])).map (fun r => r.2.deepArgs) =
      some [["app", "lodash@4.17.21"]] ∧
    some ([] : List String) ≠ some ["lodash@4.17.21"] := by
  refine ⟨rfl, rfl, by decide⟩

/-- C2 (amended): whenever the classified install or update bucket is
non-empty, fix mode invokes the Auditor with only the install bucket as
direct install arguments, each update path split on `>` as the deep-patch
configuration, and reports `install.size + update.size` as the count of
packages being updated. -/
theorem fix_invocation_amended (p : String) (d : Bool) (plan : ActionPlan)
    (h : plan.update.isEmpty = false ∨ plan.install.isEmpty = false) :
    runFixInstall p d plan =
      some (plan.install.length + plan.update.length,
        ⟨p, d, plan.install, plan.update.map (fun u => jsSplit u '>')⟩) := by
  unfold runFixInstall
  rcases h with h | h <;> simp [h]

/-- Witness for the amended C2 at the spec's end-to-end example. -/
theorem fix_invocation_amended_witness :
    runFixInstall "." false (classify [c2Action]) =
      some ((classify [c2Action]).install.length +
          (classify [c2Action]).update.length,
        ⟨".", false, (classify [c2Action]).install,
          (classify [c2Action]).update.map (fun u => jsSplit u '>')⟩) :=
  fix_invocation_amended "." false (classify [c2Action]) (Or.inl (by decide))

/-- C4: a major action contributes `module@target` to the `major` bucket,
and its classification step leaves `install`, `update` and `review`
untouched, regardless of its nominal `action` field. -/
theorem major_actions_exclusive (actions : List RAction) (a : RAction)
    (acc : ActionPlan) (ha : a ∈ actions) (hm : a.isMajor = true) :
    (a.module ++ "@" ++ a.target) ∈ (classify actions).major ∧
    (classifyStep acc a).install = acc.install ∧
    (classifyStep acc a).update = acc.update ∧
    (classifyStep acc a).review = acc.review := by
  refine ⟨foldl_mem_major actions ⟨[], [], [], []⟩ a ha hm, ?_, ?_, ?_⟩ <;>
    simp [classifyStep, hm]

/-- A breaking-change action whose nominal kind is `install`. -/
def c4Action : RAction := ⟨0, "electron", "7.0.0", "install", true, []⟩

/-- Witness for C4 at a concrete major action and accumulator. -/
theorem major_actions_exclusive_witness :
    ("electron" ++ "@" ++ "7.0.0") ∈ (classify [c4Action]).major ∧
    (classifyStep ⟨["x@1"], ["p>q@2"], [], []⟩ c4Action).install = ["x@1"] ∧
    (classifyStep ⟨["x@1"], ["p>q@2"], [], []⟩ c4Action).update = ["p>q@2"] ∧
    (classifyStep ⟨["x@1"], ["p>q@2"], [], []⟩ c4Action).review = [] :=
  major_actions_exclusive [c4Action] c4Action ⟨["x@1"], ["p>q@2"], [], []⟩
    (by simp) rfl

/-- C5: for a non-major update action and a vulnerability whose path
contains the module at first index `k`, the produced update entry keeps
exactly the segments strictly before that first occurrence, appends
`module@target`, joins with `>`, and lands in the update bucket. -/
theorem update_path_truncation (actions : List RAction) (a : RAction)
    (v : Vuln) (k : Nat) (ha : a ∈ actions) (hm : a.isMajor = false)
    (hact : a.action = "update") (hv : v ∈ a.resolves)
    (hk : (jsSplit v.path '>').findIdx? (fun x => x == a.module) = some k) :
    updateEntry v.path a.module a.target =
      jsJoin ">" ((jsSplit v.path '>').take k ++ [a.module ++ "@" ++ a.target]) ∧
    updateEntry v.path a.module a.target ∈ (classify actions).update := by
  refine ⟨?_, foldl_mem_update actions ⟨[], [], [], []⟩ a v ha hm hact hv⟩
  have h0 : ¬((k : Int) < 0) := by omega
  simp only [updateEntry, jsIndexOf, hk]
  simp [jsSliceTo, h0]

/-- The update action of the C5 truncation example. -/
def c5Action : RAction := ⟨0, "c", "2.0.0", "update", false, [⟨"a>b>c>d"⟩]⟩

/-- Witness for C5 at the spec's concrete example `"a>b>c>d"`. -/
theorem update_path_truncation_witness :
    updateEntry "a>b>c>d" "c" "2.0.0" =
      jsJoin ">" ((jsSplit "a>b>c>d" '>').take 2 ++ ["c" ++ "@" ++ "2.0.0"]) ∧
    updateEntry "a>b>c>d" "c" "2.0.0" ∈ (classify [c5Action]).update :=
  update_path_truncation [c5Action] c5Action ⟨"a>b>c>d"⟩ 2 (by simp) rfl rfl
    (by decide) (by decide)

/-- C7: for a non-major update action whose module is not a segment of the
vulnerability path, classification still totals: `indexOf` yields `-1`,
`slice(0, -1)` keeps all segments but the last, and the entry added is the
path with its final segment replaced by `module@target`. -/
theorem update_missing_module_total (actions : List RAction) (a : RAction)
    (v : Vuln) (ha : a ∈ actions) (hm : a.isMajor = false)
    (hact : a.action = "update") (hv : v ∈ a.resolves)
    (hk : (jsSplit v.path '>').findIdx? (fun x => x == a.module) = none) :
    jsIndexOf (jsSplit v.path '>') a.module = -1 ∧
    updateEntry v.path a.module a.target =
      jsJoin ">" ((jsSplit v.path '>').take ((jsSplit v.path '>').length - 1) ++
        [a.module ++ "@" ++ a.target]) ∧
    updateEntry v.path a.module a.target ∈ (classify actions).update := by
  have hI : jsIndexOf (jsSplit v.path '>') a.module = -1 := by
    unfold jsIndexOf
    rw [hk]
  refine ⟨hI, ?_, foldl_mem_update actions ⟨[], [], [], []⟩ a v ha hm hact hv⟩
  have h1 : ((-(-1 : Int)).toNat) = 1 := rfl
  simp only [updateEntry, jsIndexOf, hk]
  simp [jsSliceTo, h1]

/-- The update action of the C7 missing-module example. -/
def c7Action : RAction := ⟨0, "c", "1.0.0", "update", false, [⟨"a>b"⟩]⟩

/-- Witness for C7 at the path `"a>b"` and absent module `"c"`. -/
theorem update_missing_module_total_witness :
    jsIndexOf (jsSplit "a>b" '>') "c" = -1 ∧
    updateEntry "a>b" "c" "1.0.0" =
      jsJoin ">" ((jsSplit "a>b" '>').take ((jsSplit "a>b" '>').length - 1) ++
        ["c" ++ "@" ++ "1.0.0"]) ∧
    updateEntry "a>b" "c" "1.0.0" ∈ (classify [c7Action]).update :=
  update_missing_module_total [c7Action] c7Action ⟨"a>b"⟩ (by simp) rfl rfl
    (by decide) (by decide)

/-- First of two content-identical review actions (distinct objects). -/
def c6First : RAction := ⟨0, "m", "1.0.0", "review", false, []⟩

/-- Second of two content-identical review actions (distinct objects). -/
def c6Second : RAction := ⟨1, "m", "1.0.0", "review", false, []⟩

/-- C6 counterexample: two review actions with identical contents but
distinct object identities both enter the `review` bucket — the JS `Set`
deduplicates objects by identity, not by value. -/
theorem review_value_dedup_counterexample :
    (classify [c6First, c6Second]).review.length = 2 ∧
    c6First.module = c6Second.module ∧ c6First.target = c6Second.target ∧
    c6First.action = c6Second.action ∧ c6First.isMajor = c6Second.isMajor ∧
    c6First.resolves = c6Second.resolves :=
  ⟨rfl, rfl, rfl, rfl, rfl, rfl⟩

/-- C6 (amended): the string buckets `install`, `update` and `major`
deduplicate by value — they never hold a duplicate entry — while `review`
deduplicates only by object identity (its entries have pairwise distinct
identities, but value-identical distinct objects may coexist). -/
theorem classify_buckets_dedup_amended (actions : List RAction) :
    (classify actions).install.Nodup ∧ (classify actions).update.Nodup ∧
    (classify actions).major.Nodup ∧
    ((classify actions).review.map RAction.oid).Nodup :=
  classify_foldl_nodup actions ⟨[], [], [], []⟩ (by simp) (by simp) (by simp)
    (by simp)

/-- C8: a report-submission failure with status 404 or at least 500 is
translated into a distinct `ENOAUDIT` error whose message names the
configured registry and which carries the original error as `wrapped`;
any other failure is rethrown unchanged. -/
theorem audit_unsupported_translation (registry : String) (err : JsError) :
    ((err.statusCode = some 404 ∨
        ∃ sc : Int, err.statusCode = some sc ∧ 500 ≤ sc) →
      (handleReportError registry err).code = some "ENOAUDIT" ∧
      (handleReportError registry err).wrapped = some err ∧
      (handleReportError registry err).message =
        "Your configured registry (" ++ registry ++
          ") does not support audit requests.") ∧
    (¬(err.statusCode = some 404 ∨
        ∃ sc : Int, err.statusCode = some sc ∧ 500 ≤ sc) →
      handleReportError registry err = err) := by
  constructor
  · intro h
    cases hsc : err.statusCode with
    | none =>
      exfalso
      rcases h with h | ⟨sc, h1, _⟩
      · rw [hsc] at h; exact Option.noConfusion h
      · rw [hsc] at h1; exact Option.noConfusion h1
    | some sc =>
      have h2 : sc = 404 ∨ 500 ≤ sc := by
        rcases h with h | ⟨sc', h1, hge⟩
        · rw [hsc] at h; exact Or.inl (Option.some.inj h)
        · rw [hsc] at h1; cases Option.some.inj h1; exact Or.inr hge
      simp only [handleReportError, hsc]
      rw [if_pos h2]
      exact ⟨rfl, rfl, rfl⟩
  · intro h
    cases hsc : err.statusCode with
    | none => simp only [handleReportError, hsc]
    | some sc =>
      simp only [handleReportError, hsc]
      rw [if_neg]
      intro hcond
      rcases hcond with hc | hc
      · exact h (Or.inl (by rw [hsc, hc]))
      · exact h (Or.inr ⟨sc, hsc, hc⟩)

/-- A 404 response from the report endpoint. -/
def c8Err : JsError := .mk "not found" none (some 404) none

/-- Witness for C8 at a concrete 404 failure. -/
theorem audit_unsupported_translation_witness :
    (handleReportError "https://registry.npmjs.org/" c8Err).code =
      some "ENOAUDIT" ∧
    (handleReportError "https://registry.npmjs.org/" c8Err).wrapped =
      some c8Err ∧
    (handleReportError "https://registry.npmjs.org/" c8Err).message =
      "Your configured registry (" ++ "https://registry.npmjs.org/" ++
        ") does not support audit requests." :=
  (audit_unsupported_translation "https://registry.npmjs.org/" c8Err).1
    (Or.inl rfl)

/-- C9: in report-only mode a positive total of the four severity counts
sets the process exit code to the nonzero value 1, while an all-zero total
leaves it at its default of zero. -/
theorem report_mode_exit_status (m : VulnMeta) :
    (0 < m.low + m.moderate + m.high + m.critical →
      reportExitCode defaultExitCode m = 1 ∧
      reportExitCode defaultExitCode m ≠ 0) ∧
    (m.low + m.moderate + m.high + m.critical = 0 →
      reportExitCode defaultExitCode m = 0) := by
  constructor
  · intro h
    unfold reportExitCode
    rw [if_pos h]
    exact ⟨rfl, one_ne_zero⟩
  · intro h
    unfold reportExitCode
    rw [if_neg (by omega)]
    rfl

/-- Witness for C9 at the spec's `{low 0, moderate 1, high 0, critical 0}`
report and at the all-zero report. -/
theorem report_mode_exit_status_witness :
    (reportExitCode defaultExitCode ⟨0, 1, 0, 0⟩ = 1 ∧
      reportExitCode defaultExitCode ⟨0, 1, 0, 0⟩ ≠ 0) ∧
    reportExitCode defaultExitCode ⟨0, 0, 0, 0⟩ = 0 :=
  ⟨(report_mode_exit_status ⟨0, 1, 0, 0⟩).1 (by decide),
    (report_mode_exit_status ⟨0, 0, 0, 0⟩).2 rfl⟩

/-- C10: the Auditor's overridden top-level lifecycle hooks invoke their
callback at once and execute no project script, whatever scripts the
project configures. -/
theorem lifecycle_suppression (scripts : ProjectScripts) :
    (runPreinstallTopLevelLifecycles scripts).scriptsExecuted = [] ∧
    (runPreinstallTopLevelLifecycles scripts).callbackInvoked = true ∧
    (runPostinstallTopLevelLifecycles scripts).scriptsExecuted = [] ∧
    (runPostinstallTopLevelLifecycles scripts).callbackInvoked = true :=
  ⟨rfl, rfl, rfl, rfl⟩

lemma patchGo_err_of_no_requires (dstar i : Nat) (node : DepNode)
    (l : List String) (hl : l ≠ []) (hr : node.requires = none) :
    (patchGo dstar i node l).2 = true := by
  cases l with
  | nil => exact absurd rfl hl
  | cons s r =>
    by_cases hi : i = dstar
    · simp [patchGo, hi, mutatePhase, hr]
    · simp [patchGo, hi, hr]

lemma mutateFirst_eq_none (nm v : String) :
    ∀ l : List DepNode, mutateFirst nm v l = none ↔ findNamed nm l = none := by
  intro l
  induction l with
  | nil => simp [mutateFirst, findNamed]
  | cons n ns ih =>
    by_cases h : n.name == nm
    · simp [mutateFirst, findNamed, h]
    · simp [mutateFirst, findNamed, h, Option.map_eq_none', ih]

lemma findNamed_mutateFirst (nm v p : String) :
    ∀ (l l' : List DepNode), mutateFirst nm v l = some l' →
      findNamed p l' =
        if p = nm then (findNamed p l).map (stripDep v) else findNamed p l := by
  intro l
  induction l with
  | nil =>
    intro l' h
    simp [mutateFirst] at h
  | cons n ns ih =>
    intro l' h
    by_cases hn : n.name = nm
    · have hl' : l' = stripDep v n :: ns := by
        simp [mutateFirst, hn] at h
        exact h.symm
      subst hl'
      by_cases hp : p = nm
      · subst hp
        simp [findNamed, stripDep_name, hn]
      · have hnp : ¬ n.name = p := by rw [hn]; exact fun hh => hp hh.symm
        simp [findNamed, stripDep_name, hnp, hp]
    · have hm' : ∃ ns', mutateFirst nm v ns = some ns' ∧ l' = n :: ns' := by
        simp [mutateFirst, hn, Option.map_eq_some'] at h
        rcases h with ⟨ns', h1, h2⟩
        exact ⟨ns', h1, h2.symm⟩
      rcases hm' with ⟨ns', hns', rfl⟩
      have ihh := ih ns' hns'
      by_cases hp : p = nm
      · subst hp
        simp [findNamed, hn, ihh]
      · by_cases hq : n.name = p
        · simp [findNamed, hq, hp]
        · simp [findNamed, hq, hp, ihh]

lemma patchGo_err_of_missing :
    ∀ (pre : List String) (dstar i : Nat) (tree n : DepNode) (seg : String)
      (rest : List String), rest ≠ [] → specDescend tree pre = some n →
      childNamed n seg = none →
      (patchGo dstar i tree (pre ++ seg :: rest)).2 = true := by
  intro pre
  induction pre with
  | nil =>
    intro dstar i tree n seg rest hrest hdesc hmiss
    have hn : tree = n := by simpa [specDescend] using hdesc
    subst hn
    have hre : rest.isEmpty = false := by
      cases rest with
      | nil => exact absurd rfl hrest
      | cons a t => rfl
    rw [List.nil_append]
    by_cases hi : i = dstar
    · cases hreq : tree.requires with
      | none => exact patchGo_err_of_no_requires dstar i tree _ (by simp) hreq
      | some reqs =>
        have hfind : findNamed seg reqs = none := by
          simpa [childNamed, hreq] using hmiss
        cases hmut : mutateFirst (npaParse seg).1 (npaParse seg).2 reqs with
        | none => simp [patchGo, hi, mutatePhase, hreq, hmut]
        | some reqs1 =>
          have h2 : findNamed seg reqs1 = none := by
            rw [findNamed_mutateFirst (npaParse seg).1 (npaParse seg).2 seg
              reqs reqs1 hmut]
            split <;> simp [hfind]
          simp [patchGo, hi, mutatePhase, hreq, hmut, withRequires_requires,
            h2, hre]
    · cases hreq : tree.requires with
      | none => exact patchGo_err_of_no_requires dstar i tree _ (by simp) hreq
      | some reqs =>
        have hfind : findNamed seg reqs = none := by
          simpa [childNamed, hreq] using hmiss
        simp [patchGo, hi, hreq, hfind, hre]
  | cons p pre' ih =>
    intro dstar i tree n seg rest hrest hdesc hmiss
    have hstep : ∃ c, childNamed tree p = some c ∧ specDescend c pre' = some n := by
      cases hc : childNamed tree p with
      | none =>
        simp only [specDescend, hc] at hdesc
        exact Option.noConfusion hdesc
      | some c =>
        simp only [specDescend, hc] at hdesc
        exact ⟨c, rfl, hdesc⟩
    rcases hstep with ⟨c, hc, hdesc'⟩
    have hreq : ∃ reqs, tree.requires = some reqs ∧ findNamed p reqs = some c := by
      cases hr : tree.requires with
      | none =>
        simp only [childNamed, hr] at hc
        exact Option.noConfusion hc
      | some reqs =>
        simp only [childNamed, hr] at hc
        exact ⟨reqs, rfl, hc⟩
    rcases hreq with ⟨reqs, hr, hfind⟩
    have hne : pre' ++ seg :: rest ≠ [] := by simp
    rw [List.cons_append]
    by_cases hi : i = dstar
    · subst hi
      cases hmut : mutateFirst (npaParse p).1 (npaParse p).2 reqs with
      | none => simp [patchGo, mutatePhase, hr, hmut]
      | some reqs1 =>
        have hfind1 := findNamed_mutateFirst (npaParse p).1 (npaParse p).2 p
          reqs reqs1 hmut
        by_cases hp : p = (npaParse p).1
        · have hfound : findNamed p reqs1 = some (stripDep (npaParse p).2 c) := by
            rw [hfind1, if_pos hp, hfind]
            rfl
          have herr : (patchGo i (i + 1) (stripDep (npaParse p).2 c)
              (pre' ++ seg :: rest)).2 = true :=
            patchGo_err_of_no_requires i (i + 1) _ _ hne
              (stripDep_requires _ _)
          simp [patchGo, mutatePhase, hr, hmut, withRequires_requires,
            hfound, herr]
        · have hfound : findNamed p reqs1 = some c := by
            rw [hfind1, if_neg hp, hfind]
          have herr := ih i (i + 1) c n seg rest hrest hdesc' hmiss
          simp [patchGo, mutatePhase, hr, hmut, withRequires_requires,
            hfound, herr]
    · have herr := ih dstar (i + 1) c n seg rest hrest hdesc' hmiss
      simp [patchGo, hi, hr, hfind, herr]

lemma patchGo_unchanged_of_missing_first (dstar i : Nat) (tree : DepNode)
    (seg : String) (rest : List String) (hrest : rest ≠ [])
    (hname : (npaParse seg).1 = seg) (hmiss : childNamed tree seg = none) :
    patchGo dstar i tree (seg :: rest) = (tree, true) := by
  have hre : rest.isEmpty = false := by
    cases rest with
    | nil => exact absurd rfl hrest
    | cons a t => rfl
  by_cases hi : i = dstar
  · cases hreq : tree.requires with
    | none => simp [patchGo, hi, mutatePhase, hreq]
    | some reqs =>
      have hfind : findNamed seg reqs = none := by
        simpa [childNamed, hreq] using hmiss
      have hmut : mutateFirst (npaParse seg).1 (npaParse seg).2 reqs = none := by
        rw [hname]
        exact (mutateFirst_eq_none seg _ reqs).mpr hfind
      simp [patchGo, hi, mutatePhase, hreq, hmut]
  · cases hreq : tree.requires with
    | none => simp [patchGo, hi, hreq]
    | some reqs =>
      have hfind : findNamed seg reqs = none := by
        simpa [childNamed, hreq] using hmiss
      simp [patchGo, hi, hreq, hfind, hre]

/-- C3: if the pure descent reaches node `n` after the path prefix `pre`
and the next (non-terminal) lookup segment `seg` has no matching child in
`n.requires`, then running the patcher on that deep-arg path throws
(aborting the run before the shrinkwrap is inflated); and when the missing
segment is the first one of the path (a bare package name), the tree is
returned completely unmodified. -/
theorem patch_missing_lookup_fails (dstar i : Nat) (tree n : DepNode)
    (pre : List String) (seg : String) (rest : List String)
    (hrest : rest ≠ []) (hdesc : specDescend tree pre = some n)
    (hmiss : childNamed n seg = none) :
    (patchGo dstar i tree (pre ++ seg :: rest)).2 = true ∧
    (pre = [] → (npaParse seg).1 = seg →
      patchGo dstar i tree (pre ++ seg :: rest) = (tree, true)) := by
  refine ⟨patchGo_err_of_missing pre dstar i tree n seg rest hrest hdesc
    hmiss, ?_⟩
  intro hpre hname
  subst hpre
  have hn : tree = n := by simpa [specDescend] using hdesc
  subst hn
  rw [List.nil_append]
  exact patchGo_unchanged_of_missing_first dstar i tree seg rest hrest hname
    hmiss

/-- A root whose only dependency `app` has no children at all. -/
def c3Tree : DepNode :=
  .mk "root" (some "1.0.0") none none none (some [])

/-- Witness for C3: the path `["x", "y@1.0.0"]` whose first lookup segment
`x` is missing from the root's `requires` throws and leaves the tree
unmodified. -/
theorem patch_missing_lookup_fails_witness :
    (patchGo 0 0 c3Tree ["x", "y@1.0.0"]).2 = true ∧
    patchGo 0 0 c3Tree ["x", "y@1.0.0"] = (c3Tree, true) :=
  let h := patch_missing_lookup_fails 0 0 c3Tree c3Tree [] "x" ["y@1.0.0"]
    (by decide) rfl rfl
  ⟨h.1, h.2 rfl rfl⟩
